import Mathlib

/-!
Shallow embedding of the PhinCo/router navigation engine (the `Router`,
`RootRouter` and `ChildRouter` classes and their helper functions), together
with theorems settling the specification claims about it.

External collaborators (Grammar, Pipeline, view handles) are opaque in the
source and are modelled as oracle functions supplied as parameters.
-/

set_option maxHeartbeats 1000000

/-- Association-list lookup, modelling a JS object property read `obj[key]`. -/
def lookupAssoc {α : Type} : List (String × α) → String → Option α
  | [], _ => none
  | (k1, v) :: rest, k => if k1 = k then some v else lookupAssoc rest k

/-- Association-list update, modelling a JS object property write
`obj[key] = v` (overwrites an existing binding, otherwise adds one). -/
def setAssoc {α : Type} : List (String × α) → String → α → List (String × α)
  | [], k, v => [(k, v)]
  | (k1, v1) :: rest, k, v =>
      if k1 = k then (k, v) :: rest else (k1, v1) :: setAssoc rest k v

theorem lookupAssoc_setAssoc_self {α : Type} (l : List (String × α)) (k : String) (v : α) :
    lookupAssoc (setAssoc l k v) k = some v := by
  induction l with
  | nil => simp [setAssoc, lookupAssoc]
  | cons p rest ih =>
      obtain ⟨k1, v1⟩ := p
      by_cases h : k1 = k
      · simp [setAssoc, lookupAssoc, h]
      · simp [setAssoc, lookupAssoc, h, ih]

/-! ## Router Node navigation state machine

The part of an instruction that `Router.navigate` itself reads is its
`canonicalUrl` field; the rest of the instruction tree only flows through to
the pipeline.  View handles are opaque and modelled as numeric identifiers. -/

/-- The slice of an instruction that `navigate` consumes. -/
structure NavInstr where
  canonicalUrl : String
deriving DecidableEq, Repr

/-- Settlement of the promise returned by `navigate` (and by the operations
that delegate to it).  `resolvedNone` is `Promise.resolve()` — fulfilled with
`undefined`.  `rejectedNoMatch` is the bare `Promise.reject()` of the
no-route-match path.  `rejected reason` propagates a pipeline rejection,
whose (opaque) reason is modelled as a number. -/
inductive NavResult where
  | resolvedNone
  | resolvedUrl (url : String)
  | rejectedNoMatch
  | rejected (reason : Nat)
deriving DecidableEq, Repr

/-- Calls `navigate` makes on its collaborators, in issue order. -/
inductive NavEvent where
  | recognizeCall (url : String)
  | processCall (instr : NavInstr)
deriving DecidableEq, Repr

/-- The mutable per-node state of a Router (the fields of the `Router` class
that the navigation operations read or write; `children` lives in the store
model further below).  `lastNavigatedUrl`, `previousUrl` and
`lastNavigationAttempt` are never initialised by the constructor, hence
`Option String` with `none` for JS `undefined`. -/
structure RouterState where
  name : String
  navigating : Bool
  lastNavigatedUrl : Option String
  previousUrl : Option String
  lastNavigationAttempt : Option String
  ports : List (String × Nat)
deriving DecidableEq, Repr

/-- The `Router` constructor: `navigating = false`, empty `ports`; the three
URL fields are left `undefined`. -/
def mkRouter (name : String) : RouterState :=
  { name := name
    navigating := false
    lastNavigatedUrl := none
    previousUrl := none
    lastNavigationAttempt := none
    ports := [] }

/-- `Router.navigate(url)`, with the Grammar (`recognize`) and the Pipeline
(`process`) supplied as oracles.  Follows the source line by line:

* guard: `if (this.navigating || this.lastNavigatedUrl == url) return Promise.resolve()`;
* `recognize(url)`; on no match `return Promise.reject()`;
* `_startNavigating()` sets `navigating = true`; `instruction.router = this`
  mutates only the instruction, not the router state;
* `pipeline.process(instruction).then(() => this._finishNavigating()).then(...)`:
  both `then` callbacks are fulfillment handlers only, so on a pipeline
  rejection they are skipped — the flag stays `true` and `lastNavigatedUrl`
  is not written — and the rejection reason propagates to the caller. -/
def navigate (grammar : String → Option NavInstr) (pipeline : NavInstr → Except Nat Unit)
    (s : RouterState) (url : String) : RouterState × NavResult × List NavEvent :=
  if s.navigating = true ∨ s.lastNavigatedUrl = some url then
    (s, .resolvedNone, [])
  else
    match grammar url with
    | none => (s, .rejectedNoMatch, [.recognizeCall url])
    | some instr =>
        match pipeline instr with
        | .ok _ =>
            ({ s with navigating := false, lastNavigatedUrl := some instr.canonicalUrl },
             .resolvedUrl instr.canonicalUrl,
             [.recognizeCall url, .processCall instr])
        | .error reason =>
            ({ s with navigating := true },
             .rejected reason,
             [.recognizeCall url, .processCall instr])

/-- JS truthiness of a possibly-`undefined` string (`undefined` and `""` are
falsy). -/
def jsStrTruthy : Option String → Bool
  | none => false
  | some s => s != ""

/-- JS `a || b` on possibly-`undefined` strings. -/
def jsOrUrl (a b : Option String) : Option String :=
  if jsStrTruthy a then a else b

/-- `Router.renavigate()`:
`var renavigateDestination = this.previousUrl || this.lastNavigationAttempt;`
then navigate there when `!this.navigating && renavigateDestination`,
else `Promise.resolve()`. -/
def renavigate (grammar : String → Option NavInstr) (pipeline : NavInstr → Except Nat Unit)
    (s : RouterState) : RouterState × NavResult × List NavEvent :=
  let renavigateDestination := jsOrUrl s.previousUrl s.lastNavigationAttempt
  if !s.navigating && jsStrTruthy renavigateDestination then
    navigate grammar pipeline s (renavigateDestination.getD "")
  else
    (s, .resolvedNone, [])

/-- `Router.registerViewport(view, name)`: `this.ports[name] = view;
return this.renavigate();`. -/
def registerViewport (grammar : String → Option NavInstr) (pipeline : NavInstr → Except Nat Unit)
    (s : RouterState) (view : Nat) (name : String) : RouterState × NavResult × List NavEvent :=
  renavigate grammar pipeline { s with ports := setAssoc s.ports name view }

/-- `Router.config(mapping)`: `this.registry.config(this.name, mapping)`
mutates the shared Grammar — modelled by supplying the post-update grammar
oracle — and touches no router field; then `return this.renavigate()`. -/
def config (grammarAfter : String → Option NavInstr) (pipeline : NavInstr → Except Nat Unit)
    (s : RouterState) : RouterState × NavResult × List NavEvent :=
  renavigate grammarAfter pipeline s

/-- `Router.generate(name, params)`: pure delegation to the Grammar, no state
touched.  The grammar side is opaque, so the oracle already has the params
applied. -/
def generate (gen : String → Option String) (s : RouterState) (name : String) :
    RouterState × Option String :=
  (s, gen name)

/-- Router states reachable through the modelled operations alone, starting
from the constructor (`childRouter` creates fresh nodes through the same
constructor, so new nodes are covered by `ctor`). -/
inductive Reachable : RouterState → Prop where
  | ctor (name : String) : Reachable (mkRouter name)
  | nav {s : RouterState} (g : String → Option NavInstr) (p : NavInstr → Except Nat Unit)
      (url : String) : Reachable s → Reachable (navigate g p s url).1
  | reg {s : RouterState} (g : String → Option NavInstr) (p : NavInstr → Except Nat Unit)
      (v : Nat) (n : String) : Reachable s → Reachable (registerViewport g p s v n).1
  | cfg {s : RouterState} (g : String → Option NavInstr) (p : NavInstr → Except Nat Unit) :
      Reachable s → Reachable (config g p s).1
  | renav {s : RouterState} (g : String → Option NavInstr) (p : NavInstr → Except Nat Unit) :
      Reachable s → Reachable (renavigate g p s).1
  | gen {s : RouterState} (gn : String → Option String) (n : String) :
      Reachable s → Reachable (generate gn s n).1

/-! ### Concrete collaborators and states used to evaluate the model -/

/-- A grammar with no routes at all. -/
def gEmpty : String → Option NavInstr := fun _ => none

/-- A pipeline that always succeeds. -/
def pOk : NavInstr → Except Nat Unit := fun _ => .ok ()

/-- A grammar mapping exactly the URL `"u"` to an instruction whose canonical
URL is `"cu"`. -/
def gOne : String → Option NavInstr := fun u => if u = "u" then some ⟨"cu"⟩ else none

/-- A pipeline that always rejects with reason `42`. -/
def pFail : NavInstr → Except Nat Unit := fun _ => .error 42

/-- An idle router that last navigated to `"a"`. -/
def sIdleLastA : RouterState :=
  { name := "/", navigating := false, lastNavigatedUrl := some "a"
    previousUrl := none, lastNavigationAttempt := none, ports := [] }

/-- An idle router that last navigated to `"old"`. -/
def sIdleOld : RouterState :=
  { name := "/", navigating := false, lastNavigatedUrl := some "old"
    previousUrl := none, lastNavigationAttempt := none, ports := [] }

/-- A router with a navigation in flight. -/
def sBusy : RouterState :=
  { name := "/", navigating := true, lastNavigatedUrl := none
    previousUrl := none, lastNavigationAttempt := none, ports := [] }

/-! ## Claims about `navigate` -/

/-- C4: when the re-entrancy/idempotence guard fires — `navigating` is true,
or `url` equals `lastNavigatedUrl` — `navigate` returns an already-resolved
promise, invokes neither `Grammar.recognize` nor `Pipeline.process` (empty
call trace), and mutates no router state, so an in-flight navigation is
untouched. -/
theorem navigate_guard_is_noop (g : String → Option NavInstr) (p : NavInstr → Except Nat Unit)
    (s : RouterState) (url : String)
    (h : s.navigating = true ∨ s.lastNavigatedUrl = some url) :
    navigate g p s url = (s, NavResult.resolvedNone, []) := by
  simp only [navigate, if_pos h]

theorem navigate_guard_is_noop_witness :
    (sBusy.navigating = true ∨ sBusy.lastNavigatedUrl = some "x") ∧
      navigate gEmpty pOk sBusy "x" = (sBusy, NavResult.resolvedNone, []) :=
  ⟨Or.inl rfl, navigate_guard_is_noop gEmpty pOk sBusy "x" (Or.inl rfl)⟩

/-- C10: when the guard fires, the promise resolves with `undefined`
(`Promise.resolve()` with no value), never with a canonical URL string, so a
caller cannot tell the no-op case from a completed navigation by a URL
value. -/
theorem navigate_guard_resolves_undefined (g : String → Option NavInstr)
    (p : NavInstr → Except Nat Unit) (s : RouterState) (url : String)
    (h : s.navigating = true ∨ s.lastNavigatedUrl = some url) :
    (navigate g p s url).2.1 = NavResult.resolvedNone ∧
      ∀ u : String, (navigate g p s url).2.1 ≠ NavResult.resolvedUrl u := by
  have hnav : navigate g p s url = (s, NavResult.resolvedNone, []) := by
    simp only [navigate, if_pos h]
  rw [hnav]
  exact ⟨rfl, fun u => by simp⟩

theorem navigate_guard_resolves_undefined_witness :
    (navigate gOne pOk sIdleLastA "a").2.1 = NavResult.resolvedNone ∧
      (navigate gOne pOk sIdleLastA "a").2.1 ≠ NavResult.resolvedUrl "cu" :=
  ⟨(navigate_guard_resolves_undefined gOne pOk sIdleLastA "a" (Or.inr rfl)).1,
   (navigate_guard_resolves_undefined gOne pOk sIdleLastA "a" (Or.inr rfl)).2 "cu"⟩

/-- C1 (divergence witness): on the failure path the source chains
`.then(() => this._finishNavigating())` with a fulfillment handler only, so a
pipeline rejection skips `_finishNavigating`.  Concretely: an idle router with
`lastNavigatedUrl = "old"`, a grammar recognizing `"u"`, and a pipeline
rejecting with reason `42`.  The promise rejects with the reason preserved
and `lastNavigatedUrl` is unchanged — but `navigating` is left `true`, where
the spec requires the flag to be cleared on every rejection. -/
theorem navigate_pipeline_failure_leaves_navigating :
    navigate gOne pFail sIdleOld "u" =
      ({ sIdleOld with navigating := true }, NavResult.rejected 42,
        [NavEvent.recognizeCall "u", NavEvent.processCall ⟨"cu"⟩]) ∧
      ({ sIdleOld with navigating := true }).navigating = true ∧
      ({ sIdleOld with navigating := true }).lastNavigatedUrl = sIdleOld.lastNavigatedUrl := by
  refine ⟨?_, rfl, rfl⟩
  decide

/-- C3 (counterexample to the claim as stated): the guard runs before the
grammar, so an idle router whose `lastNavigatedUrl` equals the requested URL
resolves (with `undefined`) even though the grammar has no match for that
URL — it does not reject.  Such a state is reachable: a successful navigation
records a canonical URL and a later `config` call can change the route table. -/
theorem navigate_no_match_counterexample :
    sIdleLastA.navigating = false ∧ gEmpty "a" = none ∧
      navigate gEmpty pOk sIdleLastA "a" = (sIdleLastA, NavResult.resolvedNone, []) ∧
      (navigate gEmpty pOk sIdleLastA "a").2.1 ≠ NavResult.rejectedNoMatch := by
  refine ⟨rfl, rfl, ?_, ?_⟩ <;> decide

/-- C3 (amended): for an idle router, if additionally `url` differs from
`lastNavigatedUrl` (so the guard does not fire) and the grammar has no match,
`navigate` rejects, never enters `Navigating`, and mutates no router state:
the returned state is exactly the input state, and the only collaborator call
is the failed `recognize`. -/
theorem navigate_no_match_rejects (g : String → Option NavInstr)
    (p : NavInstr → Except Nat Unit) (s : RouterState) (url : String)
    (h1 : s.navigating = false) (h2 : s.lastNavigatedUrl ≠ some url)
    (h3 : g url = none) :
    navigate g p s url = (s, NavResult.rejectedNoMatch, [NavEvent.recognizeCall url]) := by
  have hguard : ¬(s.navigating = true ∨ s.lastNavigatedUrl = some url) := by
    simp [h1, h2]
  simp only [navigate, if_neg hguard, h3]

theorem navigate_no_match_rejects_witness :
    navigate gEmpty pOk sIdleLastA "b" =
      (sIdleLastA, NavResult.rejectedNoMatch, [NavEvent.recognizeCall "b"]) :=
  navigate_no_match_rejects gEmpty pOk sIdleLastA "b" rfl (by decide) rfl

/-! ## Viewport registration and renavigation -/

/-- A state with both renavigation URLs populated, used to evaluate the
renavigation claims. -/
def sPrev : RouterState :=
  { name := "/", navigating := false, lastNavigatedUrl := none
    previousUrl := some "pu", lastNavigationAttempt := some "la", ports := [] }

/-- C2: `registerViewport(view, name)` stores the view handle under `name`
(overwriting any prior handle for that name) and then triggers
`renavigate()`; `renavigate()`, when the node is not navigating and a
destination exists, re-issues `navigate` with `previousUrl` when that is set
(a truthy string), else with `lastNavigationAttempt` — replaying the last
attempted/successful URL for a late-registered view. -/
theorem registerViewport_stores_then_replays (g : String → Option NavInstr)
    (p : NavInstr → Except Nat Unit) (s : RouterState) (v : Nat) (n : String) :
    lookupAssoc (setAssoc s.ports n v) n = some v ∧
      registerViewport g p s v n = renavigate g p { s with ports := setAssoc s.ports n v } ∧
      (s.navigating = false →
        (∀ d : String, s.previousUrl = some d → d ≠ "" →
          renavigate g p { s with ports := setAssoc s.ports n v } =
            navigate g p { s with ports := setAssoc s.ports n v } d) ∧
        (jsStrTruthy s.previousUrl = false →
          ∀ d : String, s.lastNavigationAttempt = some d → d ≠ "" →
          renavigate g p { s with ports := setAssoc s.ports n v } =
            navigate g p { s with ports := setAssoc s.ports n v } d)) := by
  refine ⟨lookupAssoc_setAssoc_self s.ports n v, rfl, fun hnav => ⟨?_, ?_⟩⟩
  · intro d hd hde
    have ht : jsStrTruthy (some d) = true := by simp [jsStrTruthy, hde]
    simp [renavigate, jsOrUrl, hd, ht, hnav]
  · intro hp d hd hde
    have ht : jsStrTruthy (some d) = true := by simp [jsStrTruthy, hde]
    simp [renavigate, jsOrUrl, hd, hp, ht, hnav]

theorem registerViewport_stores_then_replays_witness :
    registerViewport gEmpty pOk sPrev 7 "default" =
        renavigate gEmpty pOk { sPrev with ports := setAssoc sPrev.ports "default" 7 } ∧
      renavigate gEmpty pOk { sPrev with ports := setAssoc sPrev.ports "default" 7 } =
        navigate gEmpty pOk { sPrev with ports := setAssoc sPrev.ports "default" 7 } "pu" :=
  ⟨(registerViewport_stores_then_replays gEmpty pOk sPrev 7 "default").2.1,
   ((registerViewport_stores_then_replays gEmpty pOk sPrev 7 "default").2.2 rfl).1
     "pu" rfl (by decide)⟩

/-! ## The renavigation URLs are never assigned (C9) -/

theorem navigate_renavFields (g : String → Option NavInstr) (p : NavInstr → Except Nat Unit)
    (s : RouterState) (url : String) :
    (navigate g p s url).1.previousUrl = s.previousUrl ∧
      (navigate g p s url).1.lastNavigationAttempt = s.lastNavigationAttempt := by
  by_cases h : s.navigating = true ∨ s.lastNavigatedUrl = some url
  · simp [navigate, h]
  · simp only [navigate, if_neg h]
    cases hg : g url with
    | none => simp
    | some instr => cases hp : p instr <;> simp [hp]

theorem renavigate_renavFields (g : String → Option NavInstr) (p : NavInstr → Except Nat Unit)
    (s : RouterState) :
    (renavigate g p s).1.previousUrl = s.previousUrl ∧
      (renavigate g p s).1.lastNavigationAttempt = s.lastNavigationAttempt := by
  simp only [renavigate]
  split
  · exact navigate_renavFields g p s _
  · exact ⟨rfl, rfl⟩

theorem renavigate_noop_of_none {s : RouterState} (h1 : s.previousUrl = none)
    (h2 : s.lastNavigationAttempt = none) (g : String → Option NavInstr)
    (p : NavInstr → Except Nat Unit) :
    renavigate g p s = (s, NavResult.resolvedNone, []) := by
  simp [renavigate, jsOrUrl, jsStrTruthy, h1, h2]

/-- C9: no modelled Router operation ever assigns `previousUrl` or
`lastNavigationAttempt` (the source never writes them; `navigate` writes only
`lastNavigatedUrl` among the URL fields).  Hence on any router operated on
solely through these operations both fields stay `undefined`, and
`renavigate()` always takes the no-op branch: it resolves with `undefined`,
leaves the state untouched and calls no collaborator. -/
theorem reachable_renavigate_always_noop :
    ∀ s : RouterState, Reachable s →
      s.previousUrl = none ∧ s.lastNavigationAttempt = none ∧
        ∀ (g : String → Option NavInstr) (p : NavInstr → Except Nat Unit),
          renavigate g p s = (s, NavResult.resolvedNone, []) := by
  intro s hs
  induction hs with
  | ctor name => exact ⟨rfl, rfl, fun g p => renavigate_noop_of_none rfl rfl g p⟩
  | @nav s0 g p url hr ih =>
      have hf := navigate_renavFields g p s0 url
      have h1 := hf.1.trans ih.1
      have h2 := hf.2.trans ih.2.1
      exact ⟨h1, h2, fun g2 p2 => renavigate_noop_of_none h1 h2 g2 p2⟩
  | @reg s0 g p v n hr ih =>
      have hf := renavigate_renavFields g p { s0 with ports := setAssoc s0.ports n v }
      have h1 := hf.1.trans ih.1
      have h2 := hf.2.trans ih.2.1
      exact ⟨h1, h2, fun g2 p2 => renavigate_noop_of_none h1 h2 g2 p2⟩
  | @cfg s0 g p hr ih =>
      have hf := renavigate_renavFields g p s0
      have h1 := hf.1.trans ih.1
      have h2 := hf.2.trans ih.2.1
      exact ⟨h1, h2, fun g2 p2 => renavigate_noop_of_none h1 h2 g2 p2⟩
  | @renav s0 g p hr ih =>
      have hf := renavigate_renavFields g p s0
      have h1 := hf.1.trans ih.1
      have h2 := hf.2.trans ih.2.1
      exact ⟨h1, h2, fun g2 p2 => renavigate_noop_of_none h1 h2 g2 p2⟩
  | gen gn n hr ih => exact ih

theorem reachable_renavigate_always_noop_witness :
    (mkRouter "/").previousUrl = none ∧ (mkRouter "/").lastNavigationAttempt = none ∧
      renavigate gEmpty pOk (mkRouter "/") = (mkRouter "/", NavResult.resolvedNone, []) :=
  ⟨(reachable_renavigate_always_noop (mkRouter "/") (Reachable.ctor "/")).1,
   (reachable_renavigate_always_noop (mkRouter "/") (Reachable.ctor "/")).2.1,
   (reachable_renavigate_always_noop (mkRouter "/") (Reachable.ctor "/")).2.2 gEmpty pOk⟩

/-! ## Router tree: the store model

JS router objects form a mutable, cyclically referenced tree (children point
back to their parent), so Router Nodes are modelled as entries of a store
indexed by numeric identity; `new` allocates at the end of the store.  The
shared Grammar and Pipeline references are modelled as instance identifiers. -/

/-- The identity-relevant part of a Router object: `name`, `parent`,
`registry`/`pipeline` (shared instance references) and the `children`
memoization map. -/
structure RNode where
  name : String
  parent : Option Nat
  registry : Nat
  pipeline : Nat
  children : List (String × Nat)
deriving DecidableEq, Repr

/-- The heap of Router objects; a router reference is an index into it. -/
structure Store where
  routers : List RNode
deriving DecidableEq, Repr

/-- The `ChildRouter` constructor body: `super(parent.registry,
parent.pipeline, parent, name)` — the new node shares the parent's registry
and pipeline instances, points back to its parent, and starts with empty
`ports`/`children`. -/
def freshChild (rid : Nat) (nm : String) (r : RNode) : RNode :=
  { name := nm, parent := some rid, registry := r.registry,
    pipeline := r.pipeline, children := [] }

/-- `Router.childRouter(name)`:
`if (!this.children[name]) this.children[name] = new ChildRouter(this, name);
return this.children[name];`.  A dangling receiver cannot occur in JS; the
model returns the store unchanged there. -/
def childRouter (st : Store) (rid : Nat) (nm : String) : Store × Nat :=
  match st.routers[rid]? with
  | none => (st, rid)
  | some r =>
      match lookupAssoc r.children nm with
      | some cid => (st, cid)
      | none =>
          ({ routers := (st.routers ++ [freshChild rid nm r]).set rid
               { r with children := setAssoc r.children nm st.routers.length } },
           st.routers.length)

theorem childRouter_of_lookup {st : Store} {rid : Nat} {r : RNode} {nm : String} {cid : Nat}
    (hr : st.routers[rid]? = some r) (hl : lookupAssoc r.children nm = some cid) :
    childRouter st rid nm = (st, cid) := by
  simp [childRouter, hr, hl]

theorem childRouter_of_fresh {st : Store} {rid : Nat} {r : RNode} {nm : String}
    (hr : st.routers[rid]? = some r) (hl : lookupAssoc r.children nm = none) :
    childRouter st rid nm =
      ({ routers := (st.routers ++ [freshChild rid nm r]).set rid
           { r with children := setAssoc r.children nm st.routers.length } },
       st.routers.length) := by
  simp [childRouter, hr, hl]

/-- C7: `childRouter` is memoized by name.  A second call with the same name
returns the identical child reference and leaves the store untouched; when
the child is freshly constructed it shares the parent's Grammar and Pipeline
instances and holds the parent as its (non-owning) parent reference, and the
store grows by exactly that one node; when the child already exists in the
parent's `children` map, nothing is constructed at all. -/
theorem childRouter_memoized (st : Store) (rid : Nat) (nm : String)
    (h : rid < st.routers.length) :
    childRouter (childRouter st rid nm).1 rid nm = childRouter st rid nm ∧
      (∀ r : RNode, st.routers[rid]? = some r → lookupAssoc r.children nm = none →
        (childRouter st rid nm).1.routers[(childRouter st rid nm).2]? =
            some { name := nm, parent := some rid, registry := r.registry,
                   pipeline := r.pipeline, children := [] } ∧
          (childRouter st rid nm).1.routers.length = st.routers.length + 1) ∧
      (∀ (r : RNode) (cid : Nat), st.routers[rid]? = some r →
        lookupAssoc r.children nm = some cid → childRouter st rid nm = (st, cid)) := by
  obtain ⟨r, hr⟩ : ∃ r, st.routers[rid]? = some r := ⟨_, List.getElem?_eq_getElem h⟩
  cases hl : lookupAssoc r.children nm with
  | some cid =>
      have h1 : childRouter st rid nm = (st, cid) := childRouter_of_lookup hr hl
      refine ⟨?_, ?_, ?_⟩
      · rw [h1]
        exact h1
      · intro r2 hr2 hl2
        rw [hr] at hr2
        cases hr2
        simp [hl] at hl2
      · intro r2 cid2 hr2 hl2
        rw [hr] at hr2
        cases hr2
        rw [hl] at hl2
        cases hl2
        exact h1
  | none =>
      have h1 := childRouter_of_fresh hr hl
      have hrid2 : ((st.routers ++ [freshChild rid nm r]).set rid
          { r with children := setAssoc r.children nm st.routers.length })[rid]? =
          some { r with children := setAssoc r.children nm st.routers.length } :=
        List.getElem?_set_eq_of_lt _ (by simp [Nat.lt_succ_of_lt h])
      have hcid2 : ((st.routers ++ [freshChild rid nm r]).set rid
          { r with children := setAssoc r.children nm st.routers.length })[st.routers.length]? =
          some (freshChild rid nm r) := by
        rw [List.getElem?_set_ne (Nat.ne_of_lt h)]
        rw [List.getElem?_append_right (Nat.le_refl _)]
        simp
      refine ⟨?_, ?_, ?_⟩
      · rw [h1]
        exact childRouter_of_lookup hrid2 (lookupAssoc_setAssoc_self _ _ _)
      · intro r2 hr2 hl2
        rw [hr] at hr2
        cases hr2
        rw [h1]
        exact ⟨hcid2, by simp⟩
      · intro r2 cid2 hr2 hl2
        rw [hr] at hr2
        cases hr2
        rw [hl] at hl2
        cases hl2

/-- A one-node store holding a freshly constructed root router, as built by
the `RootRouter` constructor. -/
def stRoot : Store :=
  { routers := [{ name := "/", parent := none, registry := 0, pipeline := 0,
                  children := [] }] }

theorem childRouter_memoized_witness :
    childRouter (childRouter stRoot 0 "x").1 0 "x" = childRouter stRoot 0 "x" ∧
      (childRouter stRoot 0 "x").1.routers[(childRouter stRoot 0 "x").2]? =
        some { name := "x", parent := some 0, registry := 0, pipeline := 0,
               children := [] } :=
  ⟨(childRouter_memoized stRoot 0 "x" (by decide)).1,
   ((childRouter_memoized stRoot 0 "x" (by decide)).2.1
      { name := "/", parent := none, registry := 0, pipeline := 0, children := [] }
      rfl rfl).1⟩

/-! ## Instruction trees and `makeDescendantRouters` -/

/-- An instruction-tree node: the `component` to show, the (mutable,
initially absent) `router` back-reference, and the `viewports` map from
viewport name to child instruction. -/
inductive Instr where
  | mk (component : String) (router : Option Nat) (viewports : List (String × Instr))

def Instr.component : Instr → String
  | .mk c _ _ => c

def Instr.router : Instr → Option Nat
  | .mk _ r _ => r

def Instr.viewports : Instr → List (String × Instr)
  | .mk _ _ v => v

/- All parent-child pairs of an instruction tree, recorded as
(parent's `router`, child's `component`, child's `router`). -/
mutual
def instrEdges : Instr → List (Option Nat × String × Option Nat)
  | .mk _ rtr vps => edgesUnder rtr vps
termination_by structural i => i

def edgesUnder : Option Nat → List (String × Instr) → List (Option Nat × String × Option Nat)
  | _, [] => []
  | rtr, (_, c) :: rest => (rtr, c.component, c.router) :: (instrEdges c ++ edgesUnder rtr rest)
termination_by structural _ l => l
end

/-- First pass of `traverseInstructionSync` at one node: the
`forEach(instruction.viewports, fn)` loop, where `fn` runs
`childInstruction.router = instruction.router.childRouter(childInstruction.component)`.
Returns the evolved store and the router id assigned to each child, in
viewport order.  (A JS run would throw on an undefined parent router; the
model assigns nothing in that case.) -/
def assignPass : Store → Option Nat → List (String × Instr) → Store × List (Option Nat)
  | st, _, [] => (st, [])
  | st, none, _ :: rest =>
      let res := assignPass st none rest
      (res.1, none :: res.2)
  | st, some rid, (_, c) :: rest =>
      let r1 := childRouter st rid c.component
      let res := assignPass r1.1 (some rid) rest
      (res.1, some r1.2 :: res.2)

/- `makeDescendantRouters` / `traverseInstructionSync`, as a pure rewrite of
the instruction tree threading the router store: at each node, first assign
a router to every direct child (`assignPass`), then recurse into each child
(second `forEach`), the child's `router` field being the id just assigned. -/
mutual
def mdrGo : Store → Option Nat → Instr → Store × Instr
  | st, rtr, .mk comp _ vps =>
      let pass1 := assignPass st rtr vps
      let pass2 := mdrList pass1.1 pass1.2 vps
      (pass2.1, .mk comp rtr pass2.2)
termination_by structural _ _ i => i

def mdrList : Store → List (Option Nat) → List (String × Instr) → Store × List (String × Instr)
  | st, _, [] => (st, [])
  | st, [], (nm, c) :: rest =>
      let r1 := mdrGo st none c
      let r2 := mdrList r1.1 [] rest
      (r2.1, (nm, r1.2) :: r2.2)
  | st, a :: ids, (nm, c) :: rest =>
      let r1 := mdrGo st a c
      let r2 := mdrList r1.1 ids rest
      (r2.1, (nm, r1.2) :: r2.2)
termination_by structural _ _ l => l
end

/-- `Router.makeDescendantRouters(instruction)`: the synchronous
(non-awaiting) walk over the whole instruction tree. -/
def makeDescendantRouters (st : Store) (i : Instr) : Store × Instr :=
  mdrGo st i.router i

/-- The store invariant: every memoized child reference points into the
store. -/
def StoreWF (st : Store) : Prop :=
  ∀ r ∈ st.routers, ∀ p ∈ r.children, p.2 < st.routers.length

/-- The `children` entry of router `pid` under key `comp`. -/
def lookupChildren (st : Store) (pid : Nat) (comp : String) : Option Nat :=
  (st.routers[pid]?).bind (fun r => lookupAssoc r.children comp)

/-- A recorded parent-child edge is realised in the store: the child's
router is exactly the parent router's memoized child under the child's
component name. -/
def edgeOK (st : Store) (e : Option Nat × String × Option Nat) : Prop :=
  ∃ pid cid, e.1 = some pid ∧ e.2.2 = some cid ∧ lookupChildren st pid e.2.1 = some cid

/-! ### Store lemmas for the tree-building walk -/

theorem lookupAssoc_setAssoc_ne {α : Type} (l : List (String × α)) {k k2 : String} (v : α)
    (h : k2 ≠ k) : lookupAssoc (setAssoc l k v) k2 = lookupAssoc l k2 := by
  induction l with
  | nil => simp [setAssoc, lookupAssoc, Ne.symm h]
  | cons p rest ih =>
      obtain ⟨k1, v1⟩ := p
      by_cases h1 : k1 = k
      · subst h1
        simp [setAssoc, lookupAssoc, Ne.symm h]
      · simp [setAssoc, lookupAssoc, h1, ih]

theorem mem_setAssoc {α : Type} {l : List (String × α)} {k : String} {v : α} {p : String × α}
    (h : p ∈ setAssoc l k v) : p ∈ l ∨ p = (k, v) := by
  induction l with
  | nil =>
      simp only [setAssoc, List.mem_singleton] at h
      exact Or.inr h
  | cons hd rest ih =>
      obtain ⟨k1, v1⟩ := hd
      by_cases h1 : k1 = k
      · subst h1
        simp [setAssoc] at h
        rcases h with h | h
        · exact Or.inr (by simp [h])
        · exact Or.inl (List.mem_cons_of_mem _ h)
      · simp [setAssoc, h1] at h
        rcases h with h | h
        · exact Or.inl (by simp [h])
        · rcases ih h with h2 | h2
          · exact Or.inl (List.mem_cons_of_mem _ h2)
          · exact Or.inr h2

theorem lookupAssoc_mem {α : Type} {l : List (String × α)} {k : String} {v : α}
    (h : lookupAssoc l k = some v) : (k, v) ∈ l := by
  induction l with
  | nil => simp [lookupAssoc] at h
  | cons hd rest ih =>
      obtain ⟨k1, v1⟩ := hd
      by_cases h1 : k1 = k
      · subst h1
        simp [lookupAssoc] at h
        subst h
        exact List.mem_cons_self _ _
      · simp [lookupAssoc, h1] at h
        exact List.mem_cons_of_mem _ (ih h)

theorem childRouter_of_none {st : Store} {rid : Nat} {nm : String}
    (hr : st.routers[rid]? = none) : childRouter st rid nm = (st, rid) := by
  simp [childRouter, hr]

theorem childRouter_length_le (st : Store) (rid : Nat) (nm : String) :
    st.routers.length ≤ (childRouter st rid nm).1.routers.length := by
  cases hr : st.routers[rid]? with
  | none => rw [childRouter_of_none hr]
  | some r =>
      cases hl : lookupAssoc r.children nm with
      | some cid => rw [childRouter_of_lookup hr hl]
      | none =>
          rw [childRouter_of_fresh hr hl]
          simp

theorem childRouter_mono {st : Store} {pid : Nat} {c : String} {cid : Nat}
    (rid : Nat) (nm : String) (h : lookupChildren st pid c = some cid) :
    lookupChildren (childRouter st rid nm).1 pid c = some cid := by
  cases hp : st.routers[pid]? with
  | none => simp [lookupChildren, hp] at h
  | some rp =>
      simp only [lookupChildren, hp, Option.some_bind] at h
      have hplen : pid < st.routers.length := by
        by_contra hge
        rw [List.getElem?_eq_none (Nat.le_of_not_lt hge)] at hp
        cases hp
      cases hr : st.routers[rid]? with
      | none => rw [childRouter_of_none hr]; simp [lookupChildren, hp, h]
      | some r =>
          cases hl : lookupAssoc r.children nm with
          | some cid2 => rw [childRouter_of_lookup hr hl]; simp [lookupChildren, hp, h]
          | none =>
              rw [childRouter_of_fresh hr hl]
              by_cases hpr : pid = rid
              · subst hpr
                have hrp : rp = r := by
                  rw [hp] at hr
                  exact Option.some.inj hr
                subst hrp
                have hcn : c ≠ nm := by
                  intro he
                  subst he
                  rw [h] at hl
                  cases hl
                simp only [lookupChildren]
                rw [List.getElem?_set_eq_of_lt _ (by simp [Nat.lt_succ_of_lt hplen])]
                simp only [Option.some_bind]
                rw [lookupAssoc_setAssoc_ne _ _ hcn]
                exact h
              · simp only [lookupChildren]
                rw [List.getElem?_set_ne (Ne.symm hpr)]
                rw [List.getElem?_append_left hplen, hp]
                simp only [Option.some_bind]
                exact h

theorem childRouter_wf {st : Store} {rid : Nat} (nm : String) (hwf : StoreWF st) :
    StoreWF (childRouter st rid nm).1 := by
  cases hr : st.routers[rid]? with
  | none => rw [childRouter_of_none hr]; exact hwf
  | some r =>
      cases hl : lookupAssoc r.children nm with
      | some cid => rw [childRouter_of_lookup hr hl]; exact hwf
      | none =>
          rw [childRouter_of_fresh hr hl]
          intro r2 hr2 p hp2
          have hlen : ((st.routers ++ [freshChild rid nm r]).set rid
              { r with children := setAssoc r.children nm st.routers.length }).length =
              st.routers.length + 1 := by simp
          rw [hlen]
          rcases List.mem_or_eq_of_mem_set hr2 with h2 | h2
      
          · rcases List.mem_append.mp h2 with h3 | h3
            · exact Nat.lt_succ_of_lt (hwf r2 h3 p hp2)
            · simp only [List.mem_singleton] at h3
              subst h3
              simp [freshChild] at hp2
          · subst h2
            simp only at hp2
            rcases mem_setAssoc hp2 with h4 | h4
            · exact Nat.lt_succ_of_lt (hwf r (List.getElem?_mem hr) p h4)
            · subst h4
              exact Nat.lt_succ_self _

theorem childRouter_establishes {st : Store} {rid : Nat} (nm : String)
    (h : rid < st.routers.length) :
    lookupChildren (childRouter st rid nm).1 rid nm = some (childRouter st rid nm).2 := by
  have hr : st.routers[rid]? = some st.routers[rid] := List.getElem?_eq_getElem h
  cases hl : lookupAssoc (st.routers[rid]).children nm with
  | some cid => rw [childRouter_of_lookup hr hl]; simp [lookupChildren, hr, hl]
  | none =>
      rw [childRouter_of_fresh hr hl]
      simp only [lookupChildren]
      rw [List.getElem?_set_eq_of_lt _ (by simp [Nat.lt_succ_of_lt h])]
      simp [lookupAssoc_setAssoc_self]

theorem childRouter_cid_lt {st : Store} {rid : Nat} (nm : String) (hwf : StoreWF st)
    (h : rid < st.routers.length) :
    (childRouter st rid nm).2 < (childRouter st rid nm).1.routers.length := by
  have hr : st.routers[rid]? = some st.routers[rid] := List.getElem?_eq_getElem h
  cases hl : lookupAssoc (st.routers[rid]).children nm with
  | some cid =>
      rw [childRouter_of_lookup hr hl]
      exact hwf (st.routers[rid]) (List.getElem?_mem hr) (nm, cid) (lookupAssoc_mem hl)
  | none =>
      rw [childRouter_of_fresh hr hl]
      simp

/-- After the first pass, a child has been handed a router id that is valid
in the store and recorded in the parent's `children` map under the child's
component name. -/
def childAssigned (st : Store) (rid : Nat) (a : Option Nat) (p : String × Instr) : Prop :=
  ∃ cid, a = some cid ∧ cid < st.routers.length ∧
    lookupChildren st rid p.2.component = some cid

theorem assignPass_spec (rid : Nat) :
    ∀ (st : Store) (vps : List (String × Instr)), StoreWF st → rid < st.routers.length →
      StoreWF (assignPass st (some rid) vps).1 ∧
        st.routers.length ≤ (assignPass st (some rid) vps).1.routers.length ∧
        (∀ pid c cid, lookupChildren st pid c = some cid →
          lookupChildren (assignPass st (some rid) vps).1 pid c = some cid) ∧
        List.Forall₂ (childAssigned (assignPass st (some rid) vps).1 rid)
          (assignPass st (some rid) vps).2 vps := by
  intro st vps
  induction vps generalizing st with
  | nil =>
      intro hwf hrid
      exact ⟨hwf, Nat.le_refl _, fun pid c cid h => h, List.Forall₂.nil⟩
  | cons hd rest ih =>
      intro hwf hrid
      obtain ⟨nm0, c0⟩ := hd
      have hwf1 := @childRouter_wf st rid c0.component hwf
      have hle1 := childRouter_length_le st rid c0.component
      have hrid1 : rid < (childRouter st rid c0.component).1.routers.length :=
        Nat.lt_of_lt_of_le hrid hle1
      have hest := @childRouter_establishes st rid c0.component hrid
      have hcl := @childRouter_cid_lt st rid c0.component hwf hrid
      obtain ⟨hwf2, hle2, hmono2, hF2⟩ := ih (childRouter st rid c0.component).1 hwf1 hrid1
      refine ⟨hwf2, Nat.le_trans hle1 hle2, ?_, ?_⟩
      · intro pid c cid h
        exact hmono2 pid c cid (childRouter_mono rid c0.component h)
      · exact List.Forall₂.cons
          ⟨(childRouter st rid c0.component).2, rfl, Nat.lt_of_lt_of_le hcl hle2,
            hmono2 _ _ _ hest⟩ hF2

theorem mem_edgesUnder {rtr : Option Nat} {l : List (String × Instr)}
    {e : Option Nat × String × Option Nat} (h : e ∈ edgesUnder rtr l) :
    (∃ p ∈ l, e = (rtr, p.2.component, p.2.router)) ∨ ∃ p ∈ l, e ∈ instrEdges p.2 := by
  induction l with
  | nil => simp [edgesUnder] at h
  | cons hd rest ih =>
      obtain ⟨nm0, c0⟩ := hd
      simp only [edgesUnder, List.mem_cons, List.mem_append] at h
      rcases h with rfl | h | h
      · exact Or.inl ⟨(nm0, c0), List.mem_cons_self _ _, rfl⟩
      · exact Or.inr ⟨(nm0, c0), List.mem_cons_self _ _, h⟩
      · rcases ih h with ⟨p, hp, he⟩ | ⟨p, hp, he⟩
        · exact Or.inl ⟨p, List.mem_cons_of_mem _ hp, he⟩
        · exact Or.inr ⟨p, List.mem_cons_of_mem _ hp, he⟩

mutual
theorem mdrGo_spec (st : Store) (rid : Nat) (i : Instr) (hwf : StoreWF st)
    (hrid : rid < st.routers.length) :
    StoreWF (mdrGo st (some rid) i).1 ∧
      st.routers.length ≤ (mdrGo st (some rid) i).1.routers.length ∧
      (∀ pid c cid, lookupChildren st pid c = some cid →
        lookupChildren (mdrGo st (some rid) i).1 pid c = some cid) ∧
      (mdrGo st (some rid) i).2.router = some rid ∧
      (mdrGo st (some rid) i).2.component = i.component ∧
      (∀ e ∈ instrEdges (mdrGo st (some rid) i).2, edgeOK (mdrGo st (some rid) i).1 e) := by
  cases i with
  | mk comp rtrF vps =>
      obtain ⟨hwf1, hle1, hmono1, hF1⟩ := assignPass_spec rid st vps hwf hrid
      obtain ⟨hwf2, hle2, hmono2, hCh, hEdges⟩ :=
        mdrList_spec (assignPass st (some rid) vps).1 rid
          (assignPass st (some rid) vps).2 vps hwf1 hF1
      refine ⟨hwf2, Nat.le_trans hle1 hle2,
        fun pid c cid h => hmono2 _ _ _ (hmono1 _ _ _ h), rfl, rfl, ?_⟩
      intro e he
      have he2 : e ∈ edgesUnder (some rid)
          (mdrList (assignPass st (some rid) vps).1 (assignPass st (some rid) vps).2 vps).2 := he
      rcases mem_edgesUnder he2 with ⟨q, hq, rfl⟩ | ⟨q, hq, hin⟩
      · obtain ⟨cid, hcr, hlook⟩ := hCh q hq
        exact ⟨rid, cid, rfl, hcr, hlook⟩
      · exact hEdges q hq e hin

theorem mdrList_spec (st : Store) (rid : Nat) (ids : List (Option Nat))
    (l : List (String × Instr)) (hwf : StoreWF st)
    (hF : List.Forall₂ (childAssigned st rid) ids l) :
    StoreWF (mdrList st ids l).1 ∧
      st.routers.length ≤ (mdrList st ids l).1.routers.length ∧
      (∀ pid c cid, lookupChildren st pid c = some cid →
        lookupChildren (mdrList st ids l).1 pid c = some cid) ∧
      (∀ q ∈ (mdrList st ids l).2, ∃ cid, q.2.router = some cid ∧
        lookupChildren (mdrList st ids l).1 rid q.2.component = some cid) ∧
      (∀ q ∈ (mdrList st ids l).2, ∀ e ∈ instrEdges q.2, edgeOK (mdrList st ids l).1 e) := by
  cases hF with
  | nil =>
      exact ⟨hwf, Nat.le_refl _, fun pid c cid h => h,
        fun q hq => absurd hq (List.not_mem_nil q),
        fun q hq => absurd hq (List.not_mem_nil q)⟩
  | @cons a p ids2 l2 hR hF2 =>
      obtain ⟨nm0, c0⟩ := p
      obtain ⟨cid, rfl, hcidlt, hlook⟩ := hR
      obtain ⟨hwfA, hleA, hmonoA, hrouterA, hcompA, hedgesA⟩ := mdrGo_spec st cid c0 hwf hcidlt
      have hF2A : List.Forall₂ (childAssigned (mdrGo st (some cid) c0).1 rid) ids2 l2 := by
        refine hF2.imp ?_
        intro a b hx
        obtain ⟨cid2, ha, hlt, hlk⟩ := hx
        exact ⟨cid2, ha, Nat.lt_of_lt_of_le hlt hleA, hmonoA _ _ _ hlk⟩
      obtain ⟨hwfB, hleB, hmonoB, hChB, hEdgesB⟩ :=
        mdrList_spec (mdrGo st (some cid) c0).1 rid ids2 l2 hwfA hF2A
      refine ⟨hwfB, Nat.le_trans hleA hleB,
        fun pid c cid2 h => hmonoB _ _ _ (hmonoA _ _ _ h), ?_, ?_⟩
      · intro q hq
        rcases List.mem_cons.mp hq with rfl | hq2
        · refine ⟨cid, hrouterA, ?_⟩
          rw [hcompA]
          exact hmonoB _ _ _ (hmonoA _ _ _ hlook)
        · exact hChB q hq2
      · intro q hq e he
        rcases List.mem_cons.mp hq with rfl | hq2
        · obtain ⟨pid, cid2, h1, h2, h3⟩ := hedgesA e he
          exact ⟨pid, cid2, h1, h2, hmonoB _ _ _ h3⟩
        · exact hEdgesB q hq2 e he
end

/-- C8: `makeDescendantRouters(instruction)` is a synchronous walk (a pure
function of the store and the tree — nothing is awaited) over the entire
instruction tree; for every child instruction under a parent instruction it
assigns `childInstruction.router = parentInstruction.router.childRouter(childInstruction.component)`:
in the resulting tree every parent-child edge carries a child router id that
is exactly the parent router's memoized child keyed by the child's
*component* name (not the viewport name). -/
theorem makeDescendantRouters_keyed_by_component (st : Store) (i : Instr) (rid : Nat)
    (hwf : StoreWF st) (hr : i.router = some rid) (hrid : rid < st.routers.length) :
    ∀ e ∈ instrEdges (makeDescendantRouters st i).2,
      edgeOK (makeDescendantRouters st i).1 e := by
  have h := (mdrGo_spec st rid i hwf hrid).2.2.2.2.2
  intro e he
  unfold makeDescendantRouters at he ⊢
  rw [hr] at he ⊢
  exact h e he

/-- A two-viewport instruction under the root: both viewports (`main` and
`side`) map to the same component `compA`, and neither viewport name equals
the component name. -/
def instrEx : Instr :=
  .mk "app" (some 0)
    [("main", .mk "compA" none []), ("side", .mk "compA" none [])]

theorem makeDescendantRouters_keyed_by_component_witness :
    edgeOK (makeDescendantRouters stRoot instrEx).1 (some 0, "compA", some 1) := by
  have hwf : StoreWF stRoot := by
    unfold StoreWF
    decide
  exact makeDescendantRouters_keyed_by_component stRoot instrEx 0 hwf rfl (by decide)
    (some 0, "compA", some 1) (by decide)

/-! ## The guard walk: `canDeactivatePorts` / `traversePorts`

The live Router Node tree (as far as this walk reads it: each node's `ports`
map and its `children` map) is modelled as a tree; view handles and the old
child instructions are opaque identifiers.  `canDeactivate` results are
collapsed to a `Bool`: `true` for a truthy, fulfilled outcome and `false`
for a falsy value or a rejected promise (`boolToPromise` rejects on falsy,
and `Promise.all` adopts and rejects on a rejected inner promise). -/

/-- A live Router Node tree: registered view handles by viewport name, and
child routers by name. -/
inductive RTree where
  | mk (ports : List (String × Nat)) (children : List (String × RTree))

/-- The slice of the old instruction the guard walk reads: child instruction
ids by viewport name. -/
structure CdInstr where
  viewports : List (String × Nat)
deriving DecidableEq, Repr

/- `Router.traversePorts(fn)` with `fn` fixed to the `canDeactivatePorts`
closure `(port, name) => boolToPromise(port.canDeactivate(instruction.viewports[name]))`:
`queryViewports(fn)` issues the check for every locally registered port (all
of them — `Promise.all` starts every sibling), and only when they all settle
successfully does `.then` recurse into every child Router Node
(`this.children`, the live tree — not the instruction's children).  Returns
the settlement (fulfilled/rejected) and the checks issued, as
(view handle, argument) pairs in issue order. -/
mutual
def traversePorts (cd : Nat → Option Nat → Bool) (instr : CdInstr) :
    RTree → Bool × List (Nat × Option Nat)
  | .mk ports children =>
      if (ports.map (fun p => (p.2, lookupAssoc instr.viewports p.1))).all
          (fun e => cd e.1 e.2) then
        ((traversePortsList cd instr children).1,
          ports.map (fun p => (p.2, lookupAssoc instr.viewports p.1)) ++
            (traversePortsList cd instr children).2)
      else
        (false, ports.map (fun p => (p.2, lookupAssoc instr.viewports p.1)))
termination_by structural t => t

def traversePortsList (cd : Nat → Option Nat → Bool) (instr : CdInstr) :
    List (String × RTree) → Bool × List (Nat × Option Nat)
  | [] => (true, [])
  | (_, c) :: rest =>
      ((traversePorts cd instr c).1 && (traversePortsList cd instr rest).1,
        (traversePorts cd instr c).2 ++ (traversePortsList cd instr rest).2)
termination_by structural l => l
end

/-- `Router.canDeactivatePorts(instruction)`: delegates to `traversePorts`
with the closure over the old `instruction`. -/
def canDeactivatePorts (cd : Nat → Option Nat → Bool) (instr : CdInstr) (rt : RTree) :
    Bool × List (Nat × Option Nat) :=
  traversePorts cd instr rt

mutual
theorem traversePorts_ok (cd : Nat → Option Nat → Bool) (instr : CdInstr) (t : RTree) :
    (traversePorts cd instr t).1 = (traversePorts cd instr t).2.all (fun e => cd e.1 e.2) := by
  cases t with
  | mk ports children =>
      by_cases hall : (ports.map (fun p => (p.2, lookupAssoc instr.viewports p.1))).all
          (fun e => cd e.1 e.2) = true
      · simp only [traversePorts]
        rw [if_pos hall]
        simp only [List.all_append, hall, Bool.true_and]
        exact traversePortsList_ok cd instr children
      · simp only [traversePorts]
        rw [if_neg hall]
        simp only [Bool.not_eq_true] at hall
        exact hall.symm

theorem traversePortsList_ok (cd : Nat → Option Nat → Bool) (instr : CdInstr)
    (l : List (String × RTree)) :
    (traversePortsList cd instr l).1 =
      (traversePortsList cd instr l).2.all (fun e => cd e.1 e.2) := by
  cases l with
  | nil => rfl
  | cons hd rest =>
      obtain ⟨nm, c⟩ := hd
      simp only [traversePortsList, List.all_append]
      rw [traversePorts_ok cd instr c, traversePortsList_ok cd instr rest]
end

/-- C6: in `canDeactivatePorts(instruction)`, (a) every locally registered
port's can-deactivate capability is invoked with the old instruction for its
slot (`instruction.viewports[name]`); (b) the returned promise fulfills iff
every issued check (at every visited level) passed — any falsy or rejected
result rejects it (veto); (c) on a local veto the walk stops: the result is
the rejection with only the local checks issued, so nothing below the
vetoing level is visited; (d) when all local checks settle successfully the
walk recurses into the live Router Node tree's children (`this.children`,
not the instruction's children), appending their walks' checks. -/
theorem canDeactivatePorts_spec (cd : Nat → Option Nat → Bool) (instr : CdInstr)
    (ports : List (String × Nat)) (children : List (String × RTree)) :
    (∀ p ∈ ports, (p.2, lookupAssoc instr.viewports p.1) ∈
        (canDeactivatePorts cd instr (.mk ports children)).2) ∧
      ((canDeactivatePorts cd instr (.mk ports children)).1 =
        (canDeactivatePorts cd instr (.mk ports children)).2.all (fun e => cd e.1 e.2)) ∧
      ((∃ p ∈ ports, cd p.2 (lookupAssoc instr.viewports p.1) = false) →
        canDeactivatePorts cd instr (.mk ports children) =
          (false, ports.map (fun p => (p.2, lookupAssoc instr.viewports p.1)))) ∧
      ((∀ p ∈ ports, cd p.2 (lookupAssoc instr.viewports p.1) = true) →
        canDeactivatePorts cd instr (.mk ports children) =
          ((traversePortsList cd instr children).1,
            ports.map (fun p => (p.2, lookupAssoc instr.viewports p.1)) ++
              (traversePortsList cd instr children).2)) := by
  have hmap : (ports.map (fun p => (p.2, lookupAssoc instr.viewports p.1))).all
      (fun e => cd e.1 e.2) = ports.all (fun p => cd p.2 (lookupAssoc instr.viewports p.1)) := by
    induction ports with
    | nil => rfl
    | cons q rest ih => simp only [List.map_cons, List.all_cons, ih]
  refine ⟨?_, traversePorts_ok cd instr (.mk ports children), ?_, ?_⟩
  · intro p hp
    by_cases hall : (ports.map (fun p => (p.2, lookupAssoc instr.viewports p.1))).all
        (fun e => cd e.1 e.2) = true
    · simp only [canDeactivatePorts, traversePorts]
      rw [if_pos hall]
      exact List.mem_append_left _ (List.mem_map_of_mem _ hp)
    · simp only [canDeactivatePorts, traversePorts]
      rw [if_neg hall]
      exact List.mem_map_of_mem _ hp
  · intro hveto
    have hall : (ports.map (fun p => (p.2, lookupAssoc instr.viewports p.1))).all
        (fun e => cd e.1 e.2) = false := by
      rw [hmap]
      obtain ⟨p, hp, hf⟩ := hveto
      exact List.all_eq_false.mpr ⟨p, hp, by simp [hf]⟩
    simp only [canDeactivatePorts, traversePorts]
    rw [if_neg (by simp [hall])]
  · intro hpass
    have hall : (ports.map (fun p => (p.2, lookupAssoc instr.viewports p.1))).all
        (fun e => cd e.1 e.2) = true := by
      rw [hmap]
      exact List.all_eq_true.mpr (fun p hp => hpass p hp)
    simp only [canDeactivatePorts, traversePorts]
    rw [if_pos hall]

/-- A can-deactivate oracle under which exactly view handle `5` vetoes. -/
def cdVetoAt5 : Nat → Option Nat → Bool := fun pid _ => pid != 5

/-- An old instruction with one child instruction (id 9) in the `default`
slot. -/
def cdInstrEx : CdInstr := ⟨[("default", 9)]⟩

theorem canDeactivatePorts_spec_witness :
    canDeactivatePorts cdVetoAt5 cdInstrEx
        (.mk [("default", 5)] [("x", RTree.mk [("default", 6)] [])]) =
      (false, [(5, some 9)]) := by
  have h := (canDeactivatePorts_spec cdVetoAt5 cdInstrEx [("default", 5)]
      [("x", RTree.mk [("default", 6)] [])]).2.2.1
  exact h ⟨("default", 5), List.mem_cons_self _ _, by decide⟩

/-! ## The activation walk: `activatePorts` as scheduling constraints

`activatePorts(instruction)` issues `port.activate(...)` for every locally
registered viewport (`queryViewports` → `Promise.all`, all siblings started
in one synchronous job) and, once they have all settled, recurses through
`instruction.viewports` into each child's router (`mapObjAsync`, again all
children started in one job).  The tree it walks (a node's registered ports,
and the child instructions with their routers) is the same `RTree` shape as
above.

Activations are asynchronous with arbitrary latencies, so the walk's
behaviour is modelled as the set of schedules the promise chaining allows:
an activation item is (node path, viewport name), a schedule assigns each
item an invocation time `inv` and a settlement time `stl`, and `legalAt`
checks exactly the constraints the code imposes:

* siblings at one node are issued together, in one job, so each local
  activation is invoked before any local activation settles;
* the `.then` continuation runs only after all local activations settle, so
  every item anywhere below this node is invoked strictly after every local
  item settles;
* the recursion issues all children synchronously, so the local activations
  of all children of this node are also co-issued;

and recursively so at every child. -/

def RTree.ports : RTree → List (String × Nat)
  | .mk p _ => p

def RTree.children : RTree → List (String × RTree)
  | .mk _ c => c

/-- The activation items a node issues locally: one per registered port. -/
def localActs (path : List String) (t : RTree) : List (List String × String) :=
  t.ports.map (fun p => (path, p.1))

/- All activation items of the whole walk rooted at a node. -/
mutual
def actItems (path : List String) : RTree → List (List String × String)
  | .mk ports children =>
      ports.map (fun p => (path, p.1)) ++ actItemsList path children
termination_by structural t => t

def actItemsList (path : List String) : List (String × RTree) → List (List String × String)
  | [] => []
  | (nm, c) :: rest => actItems (path ++ [nm]) c ++ actItemsList path rest
termination_by structural l => l
end

/-- The local activation items of all children of a node (they are issued
together in the continuation job). -/
def childrenLocal (path : List String) : List (String × RTree) → List (List String × String)
  | [] => []
  | (nm, c) :: rest => c.ports.map (fun p => (path ++ [nm], p.1)) ++ childrenLocal path rest

/- Whether the timestamp assignment (`inv`, `stl`) is a schedule the promise
structure of `activatePorts` permits for the walk rooted at `path`. -/
mutual
def legalAt (inv stl : List String × String → Nat) (path : List String) : RTree → Bool
  | .mk ports children =>
      ((ports.map (fun p => (path, p.1))).all fun e =>
        (ports.map (fun p => (path, p.1))).all fun f => decide (inv e < stl f))
      && ((actItemsList path children).all fun e =>
            (ports.map (fun p => (path, p.1))).all fun f => decide (stl f < inv e))
      && ((childrenLocal path children).all fun e =>
            (childrenLocal path children).all fun f => decide (inv e < stl f))
      && legalAtList inv stl path children
termination_by structural t => t

def legalAtList (inv stl : List String × String → Nat) (path : List String) :
    List (String × RTree) → Bool
  | [] => true
  | (nm, c) :: rest => legalAt inv stl (path ++ [nm]) c && legalAtList inv stl path rest
termination_by structural l => l
end

/-- A depth-4 activation tree with two branches under the root: branch `a`
has a viewport `p` with a nested viewport `q` below it; branch `b` has a
chain `r`, `s`, `t`. -/
def actEx : RTree :=
  .mk []
    [("a", .mk [("p", 0)] [("x", .mk [("q", 0)] [])]),
     ("b", .mk [("r", 0)] [("y", .mk [("s", 0)] [("z", .mk [("t", 0)] [])])])]

/-- A legal schedule for `actEx` in which branch `b` is fast and branch `a`'s
activation of `p` is slow (it settles at time 100). -/
def invEx : List String × String → Nat := fun e =>
  if e = (["a"], "p") then 0
  else if e = (["b"], "r") then 1
  else if e = (["b", "y"], "s") then 3
  else if e = (["b", "y", "z"], "t") then 5
  else if e = (["a", "x"], "q") then 101
  else 0

def stlEx : List String × String → Nat := fun e =>
  if e = (["a"], "p") then 100
  else if e = (["b"], "r") then 2
  else if e = (["b", "y"], "s") then 4
  else if e = (["b", "y", "z"], "t") then 6
  else if e = (["a", "x"], "q") then 102
  else 0

/-- C5 (counterexample to the claim as stated): the level barrier of
`activatePorts` is per node, not global per depth.  In the schedule
`invEx`/`stlEx` — legal for the promise structure of the code — the depth-4
activation `t` of the fast branch `b` is invoked (at time 5) before the
depth-3 activation `q` of the slow branch `a` is invoked (time 101) or
settled (time 102): a viewport at depth 3 is *not* activated before a
viewport at depth 4 begins activating. -/
theorem activatePorts_depth_order_counterexample :
    legalAt invEx stlEx [] actEx = true ∧
      (["a", "x"], "q") ∈ actItems [] actEx ∧
      (["b", "y", "z"], "t") ∈ actItems [] actEx ∧
      (["a", "x"], "q").1.length + 1 = 3 ∧
      (["b", "y", "z"], "t").1.length + 1 = 4 ∧
      ¬ invEx (["a", "x"], "q") < invEx (["b", "y", "z"], "t") ∧
      ¬ stlEx (["a", "x"], "q") ≤ invEx (["b", "y", "z"], "t") := by
  decide

theorem legalAtList_mem {inv stl : List String × String → Nat} {path : List String} :
    ∀ {children : List (String × RTree)}, legalAtList inv stl path children = true →
      ∀ {nm : String} {c : RTree}, (nm, c) ∈ children →
        legalAt inv stl (path ++ [nm]) c = true := by
  intro children
  induction children with
  | nil =>
      intro _ nm c hmem
      simp at hmem
  | cons hd rest ih =>
      obtain ⟨nm2, c2⟩ := hd
      intro h nm c hmem
      simp only [legalAtList, Bool.and_eq_true] at h
      rcases List.mem_cons.mp hmem with heq | hmem2
      · injection heq with h1 h2
        subst h1
        subst h2
        exact h.1
      · exact ih h.2 hmem2

/-- C5 (amended): in every schedule the promise structure of `activatePorts`
permits, (a) all sibling viewport activations at one node settle before any
activation strictly below that node begins — the walk does not descend past
a node until that node's local activations all settle; (b) sibling
activations at one node are issued together: each is invoked before any of
them settles; and (c) legality is hereditary, so (a) and (b) hold at every
node of the tree.  Parent-before-child ordering therefore holds along every
branch; across different branches no depth ordering is guaranteed (see the
counterexample). -/
theorem activatePorts_level_barrier (inv stl : List String × String → Nat) :
    ∀ (t : RTree) (path : List String), legalAt inv stl path t = true →
      (∀ f ∈ localActs path t, ∀ e ∈ actItems path t, e ∉ localActs path t →
        stl f < inv e) ∧
      (∀ e ∈ localActs path t, ∀ f ∈ localActs path t, inv e < stl f) ∧
      (∀ nm c, (nm, c) ∈ t.children → legalAt inv stl (path ++ [nm]) c = true) := by
  intro t path h
  cases t with
  | mk ports children =>
      simp only [legalAt, Bool.and_eq_true] at h
      obtain ⟨⟨⟨hb, hc⟩, hd⟩, hlist⟩ := h
      refine ⟨?_, ?_, ?_⟩
      · intro f hf e he hne
        have he2 : e ∈ ports.map (fun p => (path, p.1)) ++ actItemsList path children := he
        rcases List.mem_append.mp he2 with h1 | h1
        · exact absurd h1 hne
        · have h2 := List.all_eq_true.mp hc e h1
          exact of_decide_eq_true (List.all_eq_true.mp h2 f hf)
      · intro e he f hf
        exact of_decide_eq_true (List.all_eq_true.mp (List.all_eq_true.mp hb e he) f hf)
      · intro nm c hmem
        exact legalAtList_mem hlist hmem

/-- Branch `b` of `actEx`, rooted at path `["b"]`. -/
def actExB : RTree :=
  .mk [("r", 0)] [("y", .mk [("s", 0)] [("z", .mk [("t", 0)] [])])]

theorem activatePorts_level_barrier_witness :
    stlEx (["b"], "r") < invEx (["b", "y"], "s") ∧
      invEx (["b"], "r") < stlEx (["b"], "r") :=
  ⟨(activatePorts_level_barrier invEx stlEx actExB ["b"] (by decide)).1
      (["b"], "r") (by decide) (["b", "y"], "s") (by decide) (by decide),
   (activatePorts_level_barrier invEx stlEx actExB ["b"] (by decide)).2.1
      (["b"], "r") (by decide) (["b"], "r") (by decide)⟩
